import Mathlib

/-!
Shallow embedding of `src/pull-metrics.go` (package main), covering the parts
the claims are about:

* `printMetricsForGithub` — environment guard (lines 46-62), the cursor-based
  pagination/window-filter loop over pull requests (lines 104-140), and the
  per-author aggregation with merged/open classification (lines 161-207).
* `printMetricsForJira` — the offset pagination loop with its `Total < 50`
  stop test and `totalIssues += report.Total` accumulation (lines 290-356),
  and the changelog scan attributing the most recent "In Progress" transition
  (lines 333-350).

Timestamps (`time.Time`) are modelled as `Int` (seconds); Go's
`t.After(u)` is `t > u`.  Go `int` fields are modelled as `Int`.
A Go map with struct values reads a zero value at a missing key, so the
per-person maps are modelled as total functions with a zero default.
-/

namespace PullMetrics

/-- The fields of the `pullRequest` struct used by the loop and the
aggregator (`Title` and `TotalCommentsCount` are fetched but never read). -/
structure PullRequest where
  authorLogin : String
  createdAt : Int
  additions : Int
  deletions : Int
  changedFiles : Int
  closed : Bool
  closedAt : Int
  merged : Bool
  mergedAt : Int
  deriving DecidableEq, Repr

/-- State of the pagination loop: `allPRs` accumulated so far and whether
`break out` has fired (which exits the whole labelled loop). -/
structure FetchState where
  accepted : List PullRequest
  stopped : Bool
  deriving DecidableEq, Repr

/-- One iteration of `for _, pr := range nodes` (lines 123-133): once
`break out` has fired no further record is looked at; a record newer than
`endDate` is skipped (`continue`); one inside the window is appended to
`allPRs`; otherwise (`createdAt <= initialDate`) the labelled loop stops. -/
def processRecord (initialDate endDate : Int) (s : FetchState) (pr : PullRequest) :
    FetchState :=
  if s.stopped then s
  else if endDate < pr.createdAt then s
  else if initialDate < pr.createdAt then { s with accepted := s.accepted ++ [pr] }
  else { s with stopped := true }

/-- Scanning one page of nodes in order. -/
def processPage (initialDate endDate : Int) (s : FetchState) (page : List PullRequest) :
    FetchState :=
  page.foldl (processRecord initialDate endDate) s

/-- The `out:` loop (lines 105-140) run against a given sequence of pages.
An empty page breaks (line 119-121); `break out` inside a page ends the
loop; an exhausted page list models `HasNextPage == false` (line 135),
otherwise the cursor advances to the next page. -/
def runPages (initialDate endDate : Int) :
    List (List PullRequest) → FetchState → FetchState
  | [], s => s
  | page :: rest, s =>
    if page.isEmpty then s
    else
      let s' := processPage initialDate endDate s page
      if s'.stopped then s' else runPages initialDate endDate rest s'

/-- The `allPRs` list the loop ends with, starting from the empty state. -/
def acceptedPRs (initialDate endDate : Int) (pages : List (List PullRequest)) :
    List PullRequest :=
  (runPages initialDate endDate pages ⟨[], false⟩).accepted

/-- Splitting a list into consecutive pages of `n` records each (the last
page may be shorter); every page carries at least one record. -/
def chunksOf (n : Nat) : List PullRequest → List (List PullRequest)
  | [] => []
  | a :: l => (a :: l.take (n - 1)) :: chunksOf n (l.drop (n - 1))
termination_by l => l.length
decreasing_by simp only [List.length_cons]; exact Nat.lt_succ_of_le (l.length_drop _ ▸ Nat.sub_le _ _)

/-- The stream is ordered by creation date descending: every later record
was created no later than every earlier one. -/
def Descending (l : List PullRequest) : Prop :=
  l.Pairwise (fun a b => b.createdAt ≤ a.createdAt)

instance (l : List PullRequest) : Decidable (Descending l) := by
  unfold Descending; infer_instance

/-- The per-author row of the report table. -/
structure Metrics where
  totalPRs : Nat
  mergedPRs : Nat
  openPRs : Nat
  addedLines : Int
  removedLines : Int
  changedFiles : Int
  deriving DecidableEq, Repr

def Metrics.zero : Metrics := ⟨0, 0, 0, 0, 0, 0⟩

/-- Folding one PR into its author's row (lines 176-186 plus
`numPRs := len(prByUser[login])`):  line totals always accumulate; the PR
counts as merged when `pr.Merged && !pr.MergedAt.After(endDate)`, otherwise
as open when `!pr.Closed || pr.ClosedAt.After(endDate)`. -/
def prTally (endDate : Int) (m : Metrics) (pr : PullRequest) : Metrics :=
  let m1 : Metrics :=
    { m with
      totalPRs := m.totalPRs + 1
      addedLines := m.addedLines + pr.additions
      removedLines := m.removedLines + pr.deletions
      changedFiles := m.changedFiles + pr.changedFiles }
  if pr.merged = true ∧ pr.mergedAt ≤ endDate then
    { m1 with mergedPRs := m1.mergedPRs + 1 }
  else if pr.closed = false ∨ endDate < pr.closedAt then
    { m1 with openPRs := m1.openPRs + 1 }
  else m1

/-- The row for one login: the PRs are grouped by `pr.Author.Login`
preserving stream order (lines 146-148) and folded per login. -/
def metricsFor (endDate : Int) (login : String) (prs : List PullRequest) : Metrics :=
  (prs.filter (fun pr => pr.authorLogin == login)).foldl (prTally endDate) Metrics.zero

/-- All per-author rows, as a function of the login. -/
def aggregates (endDate : Int) (prs : List PullRequest) : String → Metrics :=
  fun login => metricsFor endDate login prs

/-- The environment guard of `printMetricsForGithub` (lines 46-62): the
skip notice printed before `return`, or `none` when the function goes on to
fetch.  Line 59 tests `githubOwner` where `githubRepo` was just read; the
model reproduces that test verbatim. -/
def githubConfigGate (githubToken githubOwner githubRepo : String) : Option String :=
  if githubToken = "" then some "GITHUB_TOKEN not provided. Skipping this report."
  else if githubOwner = "" then some "GITHUB_OWNER not provided. Skipping this report."
  else if githubOwner = "" then some "GITHUB_REPO not provided. Skipping this report."
  else none

/-- The window predicate the loop's two `After` tests implement on a record
that is reached: strictly newer than `initialDate`, no newer than `endDate`. -/
def inWindow (initialDate endDate : Int) (pr : PullRequest) : Bool :=
  decide (initialDate < pr.createdAt) && decide (pr.createdAt ≤ endDate)

/-! ### Jira pipeline (`printMetricsForJira`) -/

/-- One element of a changelog history's `Items` array. -/
structure ChangeItem where
  field : String
  toString : String
  deriving DecidableEq, Repr

/-- One changelog history entry: its author and its items. -/
structure History where
  authorDisplayName : String
  items : List ChangeItem
  deriving DecidableEq, Repr

/-- The fields of a Jira issue the scanner reads: the issue type name and
the changelog histories in the order the API returns them. -/
structure JiraIssue where
  issueTypeName : String
  histories : List History
  deriving DecidableEq, Repr

/-- The inner `for _, item := range ...Items` test (line 337): the history
entry carries a status change into "In Progress". -/
def historyMatches (h : History) : Bool :=
  h.items.any fun it => it.field == "status" && it.toString == "In Progress"

/-- The `for i := len(histories)-1; i >= 0; i--` scan: the first element,
counting from the end of the list, satisfying `p`. -/
def findFromEnd {α : Type} (p : α → Bool) : List α → Option α
  | [] => none
  | a :: l =>
    match findFromEnd p l with
    | some x => some x
    | none => if p a then some a else none

/-- The per-person value of the `countByPerson` map. -/
structure JiraCounts where
  totalInProgress : Nat
  spikeInProgress : Nat
  deriving DecidableEq, Repr

def JiraCounts.zero : JiraCounts := ⟨0, 0⟩

/-- The map starts empty; Go map reads give the zero value at missing keys. -/
def zeroCounts : String → JiraCounts := fun _ => JiraCounts.zero

/-- Lines 338-345: read the person's counts, increment `totalInProgress`,
increment `spikeInProgress` when the issue type is exactly `"Spike"`, and
store the counts back under the same key. -/
def bumpPerson (issueTypeName : String) (counts : String → JiraCounts)
    (name : String) : String → JiraCounts :=
  fun q =>
    if q = name then
      { totalInProgress := (counts name).totalInProgress + 1
        spikeInProgress := (counts name).spikeInProgress +
          (if issueTypeName = "Spike" then 1 else 0) }
    else counts q

/-- Lines 333-350: scan one issue's histories from the last index downward;
the first match attributes the issue to that entry's author and `break next`
abandons the rest of the scan; no match leaves the map unchanged. -/
def processIssue (counts : String → JiraCounts) (issue : JiraIssue) :
    String → JiraCounts :=
  match findFromEnd historyMatches issue.histories with
  | some h => bumpPerson issue.issueTypeName counts h.authorDisplayName
  | none => counts

/-- All issues of a page (and, folded across pages, of the run). -/
def processIssues (counts : String → JiraCounts) (issues : List JiraIssue) :
    String → JiraCounts :=
  issues.foldl processIssue counts

/-- One decoded `jiraReport` response: its `Total` field and `Issues` array. -/
structure JiraResponse where
  total : Int
  issues : List JiraIssue

/-- Running state of the Jira loop: `totalIssues` and the per-person map. -/
structure JiraState where
  totalIssues : Int
  counts : String → JiraCounts

def jiraInit : JiraState := ⟨0, zeroCounts⟩

/-- One loop body (lines 332-350): `totalIssues += report.Total`, then the
changelog scan over the page's issues. -/
def jiraStep (s : JiraState) (r : JiraResponse) : JiraState :=
  { totalIssues := s.totalIssues + r.total
    counts := processIssues s.counts r.issues }

/-- The `for` loop of `printMetricsForJira`, run against the sequence of
responses the server would return at offsets 0, 50, 100, ….  The `Bool` is
`true` when the loop exited through the `if report.Total < 50` break
(lines 352-354), `false` when it consumed every modelled response and would
issue yet another request (`offset += 50`, line 355). -/
def jiraRun : JiraState → List JiraResponse → JiraState × Bool
  | s, [] => (s, false)
  | s, r :: rest =>
    let s' := jiraStep s r
    if r.total < 50 then (s', true) else jiraRun s' rest

/-! ### Concrete sample data used by witnesses and counterexamples -/

/-- Four pull requests with descending creation dates around the window
`(10, 20]`: one too new, one at the upper bound, one inside, one at the
lower bound. -/
def samplePRs : List PullRequest :=
  [⟨"alice", 25, 10, 2, 1, false, 0, false, 0⟩,
   ⟨"alice", 20, 7, 1, 2, true, 21, true, 19⟩,
   ⟨"bob", 15, 3, 3, 1, false, 0, false, 0⟩,
   ⟨"bob", 10, 4, 4, 4, true, 12, true, 12⟩]

/-- A record in the window `(10, 20]`. -/
def inWindowPR : PullRequest := ⟨"alice", 15, 5, 1, 1, false, 0, false, 0⟩

/-- A second in-window record, placed after the early-stop record. -/
def lateInWindowPR : PullRequest := ⟨"bob", 18, 2, 2, 2, false, 0, false, 0⟩

/-- A record at the strict lower bound: it triggers `break out`. -/
def stopPR : PullRequest := ⟨"carol", 5, 9, 9, 9, false, 0, false, 0⟩

/-- A PR with `closed == false` that nevertheless counts as merged for
`endDate = 20` (`merged == true`, `mergedAt = 12 ≤ 20`). -/
def openCexPR : PullRequest := ⟨"alice", 15, 1, 2, 3, false, 0, true, 12⟩

/-- A PR that is neither merged nor closed. -/
def plainOpenPR : PullRequest := ⟨"bob", 15, 1, 2, 3, false, 0, false, 0⟩

def statusItem : ChangeItem := ⟨"status", "In Progress"⟩
def doneItem : ChangeItem := ⟨"status", "Done"⟩

def histAlice : History := ⟨"Alice", [statusItem]⟩
def histBob : History := ⟨"Bob", [doneItem, statusItem]⟩
def histCarol : History := ⟨"Carol", [doneItem]⟩

/-- An issue whose changelog holds two "In Progress" transitions (Alice's,
then Bob's more recent one) followed by a non-matching entry. -/
def twoTransIssue : JiraIssue := ⟨"Spike", [histAlice, histBob, histCarol]⟩

/-- An issue whose changelog never enters "In Progress". -/
def trivialIssue : JiraIssue := ⟨"Task", []⟩

/-- First Jira page: full page of 50 issues, `total = 52`. -/
def jiraPage1 : JiraResponse := ⟨52, List.replicate 50 trivialIssue⟩

/-- Second Jira page: the last 2 issues, `total = 52` repeated. -/
def jiraPage2 : JiraResponse := ⟨52, List.replicate 2 trivialIssue⟩

/-! ### Basic lemmas about the pagination loop -/

theorem processRecord_stopped (initialDate endDate : Int) (s : FetchState)
    (pr : PullRequest) (h : s.stopped = true) :
    processRecord initialDate endDate s pr = s := by
  simp [processRecord, h]

theorem processPage_stopped (initialDate endDate : Int) (s : FetchState)
    (page : List PullRequest) (h : s.stopped = true) :
    processPage initialDate endDate s page = s := by
  induction page with
  | nil => rfl
  | cons pr rest ih =>
    simp only [processPage, List.foldl_cons, processRecord_stopped _ _ _ _ h]
    exact ih

theorem processPage_append (initialDate endDate : Int) (s : FetchState)
    (l₁ l₂ : List PullRequest) :
    processPage initialDate endDate s (l₁ ++ l₂) =
      processPage initialDate endDate (processPage initialDate endDate s l₁) l₂ :=
  List.foldl_append _ _ _ _

/-- With no empty page in the stream, running the paged loop is the same as
folding the concatenation of all pages: the page boundaries are invisible
to the final state. -/
theorem runPages_eq_processPage_flatten (initialDate endDate : Int)
    (pages : List (List PullRequest)) (s : FetchState)
    (hne : ∀ pg ∈ pages, pg ≠ []) :
    runPages initialDate endDate pages s =
      processPage initialDate endDate s pages.flatten := by
  induction pages generalizing s with
  | nil => rfl
  | cons pg rest ih =>
    have hpg : pg ≠ [] := hne pg (List.mem_cons_self _ _)
    have hrest : ∀ p ∈ rest, p ≠ [] := fun p hp => hne p (List.mem_cons_of_mem _ hp)
    cases pg with
    | nil => exact absurd rfl hpg
    | cons a t =>
      have hun : runPages initialDate endDate ((a :: t) :: rest) s =
          if (processPage initialDate endDate s (a :: t)).stopped = true
          then processPage initialDate endDate s (a :: t)
          else runPages initialDate endDate rest
            (processPage initialDate endDate s (a :: t)) := rfl
      rw [hun, List.flatten_cons, processPage_append]
      by_cases hstop : (processPage initialDate endDate s (a :: t)).stopped = true
      · rw [if_pos hstop, processPage_stopped _ _ _ _ hstop]
      · rw [if_neg hstop, ih _ hrest]

/-- A single page (the "unpaged fetch") is just one fold over the list. -/
theorem runPages_singleton (initialDate endDate : Int) (l : List PullRequest)
    (s : FetchState) :
    runPages initialDate endDate [l] s = processPage initialDate endDate s l := by
  cases l with
  | nil => rfl
  | cons a t =>
    have hun : runPages initialDate endDate [a :: t] s =
        if (processPage initialDate endDate s (a :: t)).stopped = true
        then processPage initialDate endDate s (a :: t)
        else runPages initialDate endDate []
          (processPage initialDate endDate s (a :: t)) := rfl
    rw [hun]
    by_cases hstop : (processPage initialDate endDate s (a :: t)).stopped = true
    · rw [if_pos hstop]
    · rw [if_neg hstop]; rfl

theorem chunksOf_flatten (n : Nat) (l : List PullRequest) :
    (chunksOf n l).flatten = l := by
  induction l using chunksOf.induct n with
  | case1 => rw [chunksOf]; rfl
  | case2 a l ih =>
    rw [chunksOf]
    simp only [List.flatten_cons, List.cons_append, List.cons.injEq, true_and]
    rw [ih, List.take_append_drop]

theorem chunksOf_ne_nil (n : Nat) (l : List PullRequest) :
    ∀ pg ∈ chunksOf n l, pg ≠ [] := by
  induction l using chunksOf.induct n with
  | case1 =>
    intro pg hpg
    rw [chunksOf] at hpg
    exact absurd hpg (List.not_mem_nil _)
  | case2 a l ih =>
    intro pg hpg
    rw [chunksOf] at hpg
    rcases List.mem_cons.mp hpg with h | h
    · subst h; exact List.cons_ne_nil _ _
    · exact ih pg h

/-- On a descending page reached with the loop still live, the accepted list
grows by exactly the in-window records: a skipped record fails the window's
upper bound, and a record triggering `break out` is older than every record
still to come, so nothing dropped after the stop was in the window. -/
theorem processPage_accepted_descending (initialDate endDate : Int)
    (l : List PullRequest) :
    ∀ s : FetchState, Descending l → s.stopped = false →
      (processPage initialDate endDate s l).accepted =
        s.accepted ++ l.filter (inWindow initialDate endDate) := by
  induction l with
  | nil => intro s _ _; simp [processPage]
  | cons pr rest ih =>
    intro s hd hns
    obtain ⟨hhead, htail⟩ := List.pairwise_cons.mp hd
    have hstep : processPage initialDate endDate s (pr :: rest) =
        processPage initialDate endDate (processRecord initialDate endDate s pr) rest :=
      rfl
    rw [hstep]
    by_cases he : endDate < pr.createdAt
    · have h1 : processRecord initialDate endDate s pr = s := by
        unfold processRecord
        rw [if_neg (by simp [hns]), if_pos he]
      have hw : inWindow initialDate endDate pr = false := by
        unfold inWindow
        rw [decide_eq_false (not_le.mpr he), Bool.and_false]
      rw [h1, ih s htail hns, List.filter_cons_of_neg (by simp [hw])]
    · by_cases hi : initialDate < pr.createdAt
      · have h1 : processRecord initialDate endDate s pr =
            { s with accepted := s.accepted ++ [pr] } := by
          unfold processRecord
          rw [if_neg (by simp [hns]), if_neg he, if_pos hi]
        have hw : inWindow initialDate endDate pr = true := by
          unfold inWindow
          rw [decide_eq_true hi, decide_eq_true (not_lt.mp he), Bool.and_self]
        rw [h1, ih ⟨s.accepted ++ [pr], s.stopped⟩ htail hns,
          List.filter_cons_of_pos (by simp [hw])]
        simp
      · have h1 : processRecord initialDate endDate s pr = { s with stopped := true } := by
          unfold processRecord
          rw [if_neg (by simp [hns]), if_neg he, if_neg hi]
        have hw : inWindow initialDate endDate pr = false := by
          unfold inWindow
          rw [decide_eq_false hi, Bool.false_and]
        have hrest : rest.filter (inWindow initialDate endDate) = [] := by
          refine List.filter_eq_nil_iff.mpr fun x hx => ?_
          have hxle : x.createdAt ≤ pr.createdAt := hhead x hx
          have hxi : ¬ initialDate < x.createdAt := fun hlt =>
            hi (lt_of_lt_of_le hlt hxle)
          unfold inWindow
          rw [decide_eq_false hxi, Bool.false_and]
          simp
        rw [h1, processPage_stopped _ _ _ _ rfl,
          List.filter_cons_of_neg (by simp [hw]), hrest, List.append_nil]

/-- Appending to the front does not change which element is found first
from the end, unless the back holds no match at all. -/
theorem findFromEnd_append {α : Type} (p : α → Bool) (l₁ l₂ : List α) :
    findFromEnd p (l₁ ++ l₂) =
      match findFromEnd p l₂ with
      | some x => some x
      | none => findFromEnd p l₁ := by
  induction l₁ with
  | nil =>
    simp only [List.nil_append]
    cases findFromEnd p l₂ <;> rfl
  | cons a t ih =>
    have hl : findFromEnd p ((a :: t) ++ l₂) =
        match findFromEnd p (t ++ l₂) with
        | some x => some x
        | none => if p a then some a else none := rfl
    rw [hl, ih]
    cases findFromEnd p l₂ with
    | some x => rfl
    | none => rfl

theorem findFromEnd_eq_none {α : Type} (p : α → Bool) (l : List α)
    (h : ∀ x ∈ l, p x = false) : findFromEnd p l = none := by
  induction l with
  | nil => rfl
  | cons a t ih =>
    have ha : p a = false := h a (List.mem_cons_self _ _)
    have ht : findFromEnd p t = none := ih fun x hx => h x (List.mem_cons_of_mem _ hx)
    simp [findFromEnd, ht, ha]

/-- The scan on `l₁ ++ h :: l₂` returns `h` whenever `h` matches and
nothing after it does. -/
theorem findFromEnd_last_match {α : Type} (p : α → Bool) (l₁ l₂ : List α) (h : α)
    (hmatch : p h = true) (hafter : ∀ x ∈ l₂, p x = false) :
    findFromEnd p (l₁ ++ h :: l₂) = some h := by
  rw [findFromEnd_append]
  have hl₂ : findFromEnd p l₂ = none := findFromEnd_eq_none p l₂ hafter
  simp [findFromEnd, hl₂, hmatch]

/-- The `mergedPRs` component of one fold step, as an explicit branch on the
code's test `pr.Merged && !pr.MergedAt.After(endDate)`. -/
theorem prTally_mergedPRs (endDate : Int) (m : Metrics) (pr : PullRequest) :
    (prTally endDate m pr).mergedPRs =
      if pr.merged = true ∧ pr.mergedAt ≤ endDate then m.mergedPRs + 1
      else m.mergedPRs := by
  by_cases h : pr.merged = true ∧ pr.mergedAt ≤ endDate
  · simp [prTally, h]
  · by_cases h2 : pr.closed = false ∨ endDate < pr.closedAt
    · simp [prTally, h, h2]
    · simp [prTally, h, h2]

/-- The `openPRs` component of one fold step: it is incremented exactly when
the merged test fails and `!pr.Closed || pr.ClosedAt.After(endDate)` holds. -/
theorem prTally_openPRs (endDate : Int) (m : Metrics) (pr : PullRequest) :
    (prTally endDate m pr).openPRs =
      if ¬(pr.merged = true ∧ pr.mergedAt ≤ endDate) ∧
          (pr.closed = false ∨ endDate < pr.closedAt) then m.openPRs + 1
      else m.openPRs := by
  by_cases h : pr.merged = true ∧ pr.mergedAt ≤ endDate
  · simp [prTally, h]
  · by_cases h2 : pr.closed = false ∨ endDate < pr.closedAt
    · simp [prTally, h, h2]
    · simp [prTally, h, h2]

/-- One issue preserves `spikeInProgress ≤ totalInProgress` at every key:
either the map is untouched, or one key gains 1 to `totalInProgress` and at
most 1 to `spikeInProgress`. -/
theorem processIssue_preserves_spike_le (counts : String → JiraCounts)
    (issue : JiraIssue)
    (hinv : ∀ q, (counts q).spikeInProgress ≤ (counts q).totalInProgress) :
    ∀ q, ((processIssue counts issue) q).spikeInProgress ≤
      ((processIssue counts issue) q).totalInProgress := by
  intro q
  cases hfe : findFromEnd historyMatches issue.histories with
  | none =>
    have hpe : processIssue counts issue = counts := by
      unfold processIssue; rw [hfe]
    rw [hpe]; exact hinv q
  | some hh =>
    have hpe : processIssue counts issue =
        bumpPerson issue.issueTypeName counts hh.authorDisplayName := by
      unfold processIssue; rw [hfe]
    rw [hpe]
    simp only [bumpPerson]
    by_cases heq : q = hh.authorDisplayName
    · rw [if_pos heq]
      show (counts hh.authorDisplayName).spikeInProgress +
          (if issue.issueTypeName = "Spike" then 1 else 0) ≤
        (counts hh.authorDisplayName).totalInProgress + 1
      have hb := hinv hh.authorDisplayName
      by_cases hs : issue.issueTypeName = "Spike"
      · rw [if_pos hs]; omega
      · rw [if_neg hs]; omega
    · rw [if_neg heq]
      exact hinv q

theorem processIssues_spike_le (issues : List JiraIssue) :
    ∀ counts : String → JiraCounts,
      (∀ q, (counts q).spikeInProgress ≤ (counts q).totalInProgress) →
      ∀ q, ((processIssues counts issues) q).spikeInProgress ≤
        ((processIssues counts issues) q).totalInProgress := by
  induction issues with
  | nil => intro counts hinv q; exact hinv q
  | cons i rest ih =>
    intro counts hinv q
    exact ih (processIssue counts i) (processIssue_preserves_spike_le counts i hinv) q

/-! ### The claims -/

/-- Claim C1: splitting a descending-ordered record set into pages of size
1, 3 or 100 yields the same accepted list, and hence the same per-author
aggregates, as presenting the whole set as one page; every record is
attributed exactly once regardless of where the page boundaries fall. -/
theorem github_pagination_equiv (initialDate endDate : Int) (l : List PullRequest)
    (p : Nat) (hp : p = 1 ∨ p = 3 ∨ p = 100) (hd : Descending l) :
    acceptedPRs initialDate endDate (chunksOf p l) =
      acceptedPRs initialDate endDate [l] ∧
    aggregates endDate (acceptedPRs initialDate endDate (chunksOf p l)) =
      aggregates endDate (acceptedPRs initialDate endDate [l]) := by
  have hacc : acceptedPRs initialDate endDate (chunksOf p l) =
      acceptedPRs initialDate endDate [l] := by
    unfold acceptedPRs
    rw [runPages_eq_processPage_flatten _ _ _ _ (chunksOf_ne_nil p l),
      chunksOf_flatten, runPages_singleton]
  exact ⟨hacc, congrArg (aggregates endDate) hacc⟩

/-- Witness for C1 on four concrete pull requests split into pages of 3. -/
theorem github_pagination_equiv_witness :
    ((3 : Nat) = 1 ∨ (3 : Nat) = 3 ∨ (3 : Nat) = 100) ∧ Descending samplePRs ∧
    (acceptedPRs 10 20 (chunksOf 3 samplePRs) = acceptedPRs 10 20 [samplePRs] ∧
      aggregates 20 (acceptedPRs 10 20 (chunksOf 3 samplePRs)) =
        aggregates 20 (acceptedPRs 10 20 [samplePRs])) :=
  ⟨Or.inr (Or.inl rfl), by decide,
    github_pagination_equiv 10 20 samplePRs 3 (Or.inr (Or.inl rfl)) (by decide)⟩

/-- Claim C2: on a descending stream the loop accepts exactly the records
with `initialDate < createdAt ≤ endDate`; a record at `createdAt = start`
fails the filter (strict lower bound), one at `createdAt = end` passes it
(inclusive upper bound). -/
theorem github_window_filter (initialDate endDate : Int) (l : List PullRequest)
    (hd : Descending l) :
    acceptedPRs initialDate endDate [l] = l.filter (inWindow initialDate endDate) := by
  unfold acceptedPRs
  rw [runPages_singleton,
    processPage_accepted_descending initialDate endDate l ⟨[], false⟩ hd rfl]
  rfl

/-- Witness for C2: the sample stream holds a record at the upper bound
(creation 20, accepted) and one at the lower bound (creation 10, rejected). -/
theorem github_window_filter_witness :
    Descending samplePRs ∧
    acceptedPRs 10 20 [samplePRs] = samplePRs.filter (inWindow 10 20) :=
  ⟨by decide, github_window_filter 10 20 samplePRs (by decide)⟩

/-- Claim C3: once a record with `createdAt ≤ initialDate` occurs in the
paged stream, the whole pagination loop stops there: the accepted list is
the one produced by the stream truncated just before that record, so nothing
later in the same page or in any later page is included. -/
theorem github_early_stop (initialDate endDate : Int)
    (pages : List (List PullRequest)) (l₁ l₂ : List PullRequest) (r : PullRequest)
    (hse : initialDate ≤ endDate)
    (hflat : pages.flatten = l₁ ++ r :: l₂)
    (hne : ∀ pg ∈ pages, pg ≠ [])
    (hr : r.createdAt ≤ initialDate) :
    acceptedPRs initialDate endDate pages = acceptedPRs initialDate endDate [l₁] := by
  unfold acceptedPRs
  rw [runPages_eq_processPage_flatten _ _ _ _ hne, hflat, runPages_singleton,
    processPage_append]
  by_cases hstop : (processPage initialDate endDate ⟨[], false⟩ l₁).stopped = true
  · rw [processPage_stopped _ _ _ _ hstop]
  · have hstep : processRecord initialDate endDate
        (processPage initialDate endDate ⟨[], false⟩ l₁) r =
        { processPage initialDate endDate ⟨[], false⟩ l₁ with stopped := true } := by
      unfold processRecord
      rw [if_neg hstop, if_neg (not_lt.mpr (hr.trans hse)), if_neg (not_lt.mpr hr)]
    have hcons : processPage initialDate endDate
        (processPage initialDate endDate ⟨[], false⟩ l₁) (r :: l₂) =
        { processPage initialDate endDate ⟨[], false⟩ l₁ with stopped := true } := by
      have hone : processPage initialDate endDate
          (processPage initialDate endDate ⟨[], false⟩ l₁) (r :: l₂) =
          processPage initialDate endDate (processRecord initialDate endDate
            (processPage initialDate endDate ⟨[], false⟩ l₁) r) l₂ := rfl
      rw [hone, hstep, processPage_stopped _ _ _ _ rfl]
    rw [hcons]

/-- Witness for C3: the stopping record sits in the middle of the second
page; the in-window record after it is dropped. -/
theorem github_early_stop_witness :
    stopPR.createdAt ≤ 10 ∧
    acceptedPRs 10 20 [[inWindowPR], [stopPR, lateInWindowPR]] =
      acceptedPRs 10 20 [[inWindowPR]] :=
  ⟨by decide,
    github_early_stop 10 20 [[inWindowPR], [stopPR, lateInWindowPR]]
      [inWindowPR] [lateInWindowPR] stopPR (by decide) rfl (by decide) (by decide)⟩

/-- Claim C4: one fold step increments `mergedPRs` exactly when
`merged = true` and `mergedAt ≤ endDate`; in particular a PR merged one
second after `endDate` leaves `mergedPRs` unchanged. -/
theorem github_merged_classification (endDate : Int) (m : Metrics)
    (pr : PullRequest) :
    ((prTally endDate m pr).mergedPRs = m.mergedPRs + 1 ↔
      pr.merged = true ∧ pr.mergedAt ≤ endDate) ∧
    (prTally endDate m
      { pr with merged := true, mergedAt := endDate + 1 }).mergedPRs =
      m.mergedPRs := by
  constructor
  · rw [prTally_mergedPRs]
    by_cases h : pr.merged = true ∧ pr.mergedAt ≤ endDate
    · rw [if_pos h]
      exact ⟨fun _ => h, fun _ => rfl⟩
    · rw [if_neg h]
      exact ⟨fun habs => absurd habs (by omega), fun hc => absurd hc h⟩
  · rw [prTally_mergedPRs, if_neg]
    intro hc
    have h2 : endDate + 1 ≤ endDate := hc.2
    omega

/-- Counterexample to claim C5 as stated: `openCexPR` has `closed = false`
yet its fold step does not increment `openPRs`, because the record already
counted as merged (`merged = true`, `mergedAt = 12 ≤ 20`) and the open test
is the `else` branch of the merged test. -/
theorem github_open_claim_cex :
    openCexPR.closed = false ∧
    (prTally 20 Metrics.zero openCexPR).openPRs ≠ Metrics.zero.openPRs + 1 := by
  decide

/-- Claim C5 as amended: provided the record does not count as merged, one
fold step increments `openPRs` exactly when `closed = false` or
`closedAt > endDate`; in particular `closed = false` then counts as open,
and `closed = true` with `closedAt = endDate + 1` counts as open. -/
theorem github_open_classification (endDate : Int) (m : Metrics)
    (pr : PullRequest)
    (hnm : ¬(pr.merged = true ∧ pr.mergedAt ≤ endDate)) :
    (prTally endDate m pr).openPRs = m.openPRs + 1 ↔
      (pr.closed = false ∨ endDate < pr.closedAt) := by
  rw [prTally_openPRs]
  by_cases h : pr.closed = false ∨ endDate < pr.closedAt
  · rw [if_pos ⟨hnm, h⟩]
    exact ⟨fun _ => h, fun _ => rfl⟩
  · rw [if_neg fun hc => h hc.2]
    exact ⟨fun habs => absurd habs (by omega), fun hc => absurd hc h⟩

/-- Witness for the amended C5 on a PR that is neither merged nor closed. -/
theorem github_open_classification_witness :
    ¬(plainOpenPR.merged = true ∧ plainOpenPR.mergedAt ≤ 20) ∧
    ((prTally 20 Metrics.zero plainOpenPR).openPRs = Metrics.zero.openPRs + 1 ↔
      (plainOpenPR.closed = false ∨ 20 < plainOpenPR.closedAt)) :=
  ⟨by decide, github_open_classification 20 Metrics.zero plainOpenPR (by decide)⟩

/-- Claim C6 names a bug: the loop's stop test reads `report.Total`, not the
page's issue count.  On two responses repeating `total = 52` whose second
page carries only 2 issues, the loop does not break after the second page
(it would request a third), although that page has fewer than 50 issues. -/
theorem jira_stop_uses_total_bug :
    jiraPage2.issues.length < 50 ∧
    (jiraRun jiraInit [jiraPage1, jiraPage2]).2 = false := by
  constructor
  · decide
  · rfl

/-- Claim C7 names a bug: `totalIssues += report.Total` sums the repeated
`total` across pages, so two responses with `total = 52` leave
`totalIssues = 104`, not the 52 the spec reports. -/
theorem jira_total_summed_bug :
    (jiraRun jiraInit [jiraPage1, jiraPage2]).1.totalIssues = 104 ∧
    (104 : Int) ≠ 52 := by
  constructor
  · rfl
  · decide

/-- Claim C8: when an issue's changelog has several "In Progress"
transitions, the backward scan attributes the issue to the author of the
most recent one only — the whole update is a single `bumpPerson` of that
author (one `totalInProgress` increment, plus one `spikeInProgress`
increment exactly when the issue type is `"Spike"`). -/
theorem jira_latest_transition (counts : String → JiraCounts) (issue : JiraIssue)
    (l₁ l₂ : List History) (h : History)
    (hsplit : issue.histories = l₁ ++ h :: l₂)
    (hmatch : historyMatches h = true)
    (hafter : ∀ h' ∈ l₂, historyMatches h' = false)
    (htwo : 2 ≤ (issue.histories.filter historyMatches).length) :
    processIssue counts issue =
      bumpPerson issue.issueTypeName counts h.authorDisplayName := by
  unfold processIssue
  rw [hsplit, findFromEnd_last_match historyMatches l₁ l₂ h hmatch hafter]

/-- Witness for C8: `twoTransIssue` has matching transitions by Alice and by
Bob (Bob's more recent); the scan bumps Bob only. -/
theorem jira_latest_transition_witness :
    historyMatches histAlice = true ∧ historyMatches histBob = true ∧
    processIssue zeroCounts twoTransIssue =
      bumpPerson twoTransIssue.issueTypeName zeroCounts histBob.authorDisplayName :=
  ⟨by decide, by decide,
    jira_latest_transition zeroCounts twoTransIssue [histAlice] [histCarol]
      histBob rfl (by decide) (by decide) (by decide)⟩

/-- Claim C9 names a bug: with `GITHUB_TOKEN` and `GITHUB_OWNER` set but
`GITHUB_REPO` empty, the guard does not skip (line 59 re-tests the owner
variable), so the function proceeds to the fetch instead of printing the
`GITHUB_REPO` notice and returning. -/
theorem github_repo_missing_not_skipped :
    githubConfigGate "token" "owner" "" = none := rfl

/-- Claim C10: starting from the empty map, after any sequence of issues
every person's `spikeInProgress` is at most their `totalInProgress`, since
`spikeInProgress` is only incremented alongside `totalInProgress`. -/
theorem jira_spike_le_total (issues : List JiraIssue) (p : String) :
    ((processIssues zeroCounts issues) p).spikeInProgress ≤
      ((processIssues zeroCounts issues) p).totalInProgress :=
  processIssues_spike_le issues zeroCounts (fun _ => Nat.le_refl 0) p

end PullMetrics
